import Mathlib

/-!
Verification of `syzygy/scripts/asan/minidump_symbolizer.py`.

Lines of debugger output are modelled as `List Char` (Python text lines after
`readline`).  The script's regular expressions are embedded by deterministic
parsers that realise the exact leftmost-first backtracking semantics of the
Python `re` module on the two fixed patterns `_STACK_FRAME_RE` and `_CHROME_RE`
(derived case analysis is documented at each definition).  The subprocess
protocol of `ProcessMinidump` is modelled by an explicit channel state: the
debugger's standard output is a scripted list of lines, and every write to the
debugger's standard input is recorded in an action trace.
-/

namespace Sawbuck

/-- Shorthand turning a string literal into the `List Char` the model works on. -/
def chars (s : String) : List Char := s.data

/-- Whitespace characters stripped by Python `str.rstrip()` (ASCII range). -/
def isPyWs (c : Char) : Bool :=
  c = ' ' || c = '\t' || c = '\n' || c = '\r' || c = '\x0b' || c = '\x0c'

/-- Python `line.rstrip()`: remove trailing whitespace. -/
def rstrip (l : List Char) : List Char :=
  (l.reverse.dropWhile isPyWs).reverse

/-- Python substring test `needle in hay` on text. -/
def containsTok (needle : List Char) : List Char → Bool
  | [] => needle.isEmpty
  | c :: rest => needle.isPrefixOf (c :: rest) || containsTok needle rest

/-- `_SENTINEL = 'ENDENDEND'`. -/
def sentinelTok : List Char := chars "ENDENDEND"

/-- `_BAD_ACCESS_INFO_FRAME = "asan_rtl!agent::asan::AsanRuntime::OnError"`. -/
def badAccessInfoFrameTok : List Char := chars "asan_rtl!agent::asan::AsanRuntime::OnError"

/-- Hexadecimal digit class `[0-9A-F]` of `_STACK_FRAME_RE` under `re.IGNORECASE`. -/
def isHexDigitChar (c : Char) : Bool :=
  c.isDigit || ('a' ≤ c && c ≤ 'f') || ('A' ≤ c && c ≤ 'F')

/-- A parsed stack frame: the `address` alternative or the `module`/`location`
alternative of `_STACK_FRAME_RE` (`location = none` when the optional
`(!(?P<location>.*))?` group did not participate). -/
inductive Frame where
  | addr (a : List Char)
  | mod (module : List Char) (location : Option (List Char))
deriving DecidableEq, Repr

/-- One iteration of the `args` group `([0-9A-F]+\ +)+`: a maximal nonempty run
of hex digits followed by a maximal nonempty run of spaces.  Returns the
remainder, or `none` when no further iteration is possible at this position. -/
def consumePair (l : List Char) : Option (List Char) :=
  let h := l.takeWhile isHexDigitChar
  let r1 := l.dropWhile isHexDigitChar
  if h = [] then none
  else
    let s := r1.takeWhile (fun c => c = ' ')
    let r2 := r1.dropWhile (fun c => c = ' ')
    if s = [] then none else some r2

/-- Greedy repetition of `consumePair` (fuel-bounded; consuming a pair removes
at least two characters, so `l.length` fuel is always enough). -/
def consumePairs : Nat → List Char → List Char
  | 0, l => l
  | fuel + 1, l =>
    match consumePair l with
    | none => l
    | some r => consumePairs fuel r

/-- The `args` group `(?P<args>([0-9A-F]+\ +)+)` of `_STACK_FRAME_RE`: at least
one hex-run/space-run pair, consumed greedily.  Backtracking of the Python
engine into shorter `args` matches never changes the overall result: any
shorter split leaves a remainder that starts inside the hex/space region and
therefore fails both tail alternatives, so the greedy split is the only one
whose tail can succeed. -/
def consumeArgs (l : List Char) : Option (List Char) :=
  match consumePair l with
  | none => none
  | some r => some (consumePairs r.length r)

/-- Backtracking of `(?P<module>[^ ]+)(!(?P<location>.*))?$` after the greedy
attempt failed: try module lengths `n, n-1, ..., 1`; a length `ℓ` succeeds when
the character at index `ℓ` is `!` and the rest (the `location`, matched by
`.*$`) contains no newline. -/
def tryModuleSplits (r : List Char) : Nat → Option Frame
  | 0 => none
  | n + 1 =>
    if r.get? (n + 1) = some '!' && (r.drop (n + 2)).all (fun c => c ≠ '\n') then
      some (Frame.mod (r.take (n + 1)) (some (r.drop (n + 2))))
    else tryModuleSplits r n

/-- The first tail alternative `(?P<module>[^ ]+)(!(?P<location>.*))?` followed
by `$`.  The greedy engine first takes the maximal nonspace prefix as `module`;
if that reaches the end of the input the optional group is skipped and the
match succeeds with `location = none` (even when the module text contains `!`).
Only when a space remains does the engine backtrack into the `!`-split, from
the longest module candidate down. -/
def matchModule (r : List Char) : Option Frame :=
  let p := r.takeWhile (fun c => c ≠ ' ')
  if p.length = 0 then none
  else if p.length = r.length then some (Frame.mod r none)
  else tryModuleSplits r (p.length - 1)

/-- The second tail alternative `(?P<address>0x[0-9a-f]+)` followed by `$`
(`re.IGNORECASE`: `X` and upper-case hex digits also match). -/
def matchAddress (r : List Char) : Option Frame :=
  match r with
  | c0 :: c :: rest =>
    if c0 = '0' && (c = 'x' || c = 'X') && !rest.isEmpty && rest.all isHexDigitChar then
      some (Frame.addr (c0 :: c :: rest))
    else none
  | _ => none

/-- The tail alternation of `_STACK_FRAME_RE`, in the pattern's order: the
module alternative is tried first, the address alternative only if it fails. -/
def matchTail (r : List Char) : Option Frame :=
  match matchModule r with
  | some f => some f
  | none => matchAddress r

/-- `_STACK_FRAME_RE.match(line)`: the anchored match `^args(module|address)$`,
returning the captured frame, or `none` when the line does not match. -/
def parseLine (line : List Char) : Option Frame :=
  match consumeArgs line with
  | none => none
  | some r => matchTail r

/-- Suffix class `[_0-9A-F]` of `_CHROME_RE` under `re.IGNORECASE`. -/
def isChromeSuffixChar (c : Char) : Bool :=
  c = '_' || isHexDigitChar c

/-- Match of `_CHROME_RE = (chrome[_0-9A-F]+)` (ignore-case) anchored at the
start of `l`: `chrome` in any case followed by a maximal nonempty run of
suffix characters.  Returns the remainder after the match. -/
def chromeMatchAt (l : List Char) : Option (List Char) :=
  if (l.take 6).map Char.toLower = chars "chrome" then
    if (l.drop 6).takeWhile isChromeSuffixChar = [] then none
    else some ((l.drop 6).dropWhile isChromeSuffixChar)
  else none

/-- `re.sub` scanning for `NormalizeChromeSymbol`, fuel-bounded (every match
consumes at least seven characters, so `l.length` fuel always suffices): scan
left to right, replace each leftmost non-overlapping match by `chrome_dll`,
resume after the match. -/
def chromeSubFuel : Nat → List Char → List Char
  | 0, l => l
  | fuel + 1, l =>
    match l with
    | [] => []
    | c :: rest =>
      match chromeMatchAt (c :: rest) with
      | some rem => chars "chrome_dll" ++ chromeSubFuel fuel rem
      | none => c :: chromeSubFuel fuel rest

/-- `NormalizeChromeSymbol(symbol) = _CHROME_RE.sub('chrome_dll', symbol)`. -/
def NormalizeChromeSymbol (l : List Char) : List Char :=
  chromeSubFuel l.length l

/-- The body of the `for` loop of `NormalizeStackTrace`: render one matched
frame.  `if address:` takes the address branch (a matched address is never
empty); otherwise the module and, when truthy, the location are normalized;
a `None` or empty location (both falsy in Python) renders as `unknown`, and
the frame renders as `'%s!%s' % (module, location)`. -/
def renderFrame : Frame → List Char
  | Frame.addr a => a
  | Frame.mod m loc =>
    let m1 := NormalizeChromeSymbol m
    let l1 := match loc with
      | some l => if l ≠ [] then NormalizeChromeSymbol l else chars "unknown"
      | none => chars "unknown"
    m1 ++ '!' :: l1

/-- `NormalizeStackTrace(stack_trace)`: match every line against
`_STACK_FRAME_RE`, skip lines that do not match (`continue`), and append the
rendering of each matched frame in order. -/
def NormalizeStackTrace : List (List Char) → List (List Char)
  | [] => []
  | line :: rest =>
    match parseLine line with
    | none => NormalizeStackTrace rest
    | some f => renderFrame f :: NormalizeStackTrace rest

/-! ## Command channel and orchestrator -/

/-- One observable action of `ProcessMinidump` on the debugger subprocess:
a write to its standard input, or `debugger.wait()`. -/
inductive Act where
  | write (l : List Char)
  | wait
deriving DecidableEq, Repr

/-- Channel state: the scripted lines remaining on the debugger's standard
output, and the trace of actions performed so far. -/
structure Chan where
  script : List (List Char)
  log : List Act
deriving DecidableEq, Repr

/-- The suffix `'; .echo %s\n' % _SENTINEL` appended to every command. -/
def echoSfx : List Char := chars "; .echo " ++ sentinelTok ++ chars "\n"

/-- The read loop of `_Command`: read a line, `rstrip` it, stop (discarding the
line) when it contains the sentinel, otherwise collect it.  Returns `none` when
the scripted output is exhausted before a sentinel line appears — in the real
program `readline` then returns `''` forever and the loop never terminates. -/
def readUntilSentinel : List (List Char) → Option (List (List Char) × List (List Char))
  | [] => none
  | l :: rest =>
    let r := rstrip l
    if containsTok sentinelTok r then some ([], rest)
    else
      match readUntilSentinel rest with
      | none => none
      | some (out, rem) => some (r :: out, rem)

/-- `_Command(debugger, command)`: write the command with the echo suffix, then
run the read loop.  The write is recorded in the trace even when the read loop
subsequently blocks forever. -/
def sendCommand (st : Chan) (cmd : List Char) : Option (List (List Char)) × Chan :=
  let log1 := st.log ++ [Act.write (cmd ++ echoSfx)]
  match readUntilSentinel st.script with
  | none => (none, { script := [], log := log1 })
  | some (out, rem) => (some out, { script := rem, log := log1 })

/-- Issue a sequence of commands, discarding their outputs (the setup phase of
`ProcessMinidump`).  The `Bool` is `false` when some command blocked forever,
in which case the remaining commands are never issued. -/
def sendSeq : Chan → List (List Char) → Bool × Chan
  | st, [] => (true, st)
  | st, c :: cs =>
    match sendCommand st c with
    | (none, st1) => (false, st1)
    | (some _, st1) => sendSeq st1 cs

/-- The setup commands of `ProcessMinidump`: the four symbol-path commands when
`pdb_path is not None`, then `.lines` unconditionally. -/
def setupCmds (pdbPath : Option (List Char)) : List (List Char) :=
  (match pdbPath with
   | some p => [chars ".sympath " ++ p, chars ".reload /fi chrome.dll",
                chars ".reload /fi syzyasan_rtl.dll", chars ".symfix"]
   | none => []) ++ [chars ".lines"]

/-- The loop locating the bad-access-info frame: a counter starting at `0` is
incremented for every normalized frame whose text does not contain
`_BAD_ACCESS_INFO_FRAME`, and the loop breaks at the first frame that does.
Modelled over `Int` because the source then compares the counter with `-1`. -/
def findBadAccessFrame : List (List Char) → Int
  | [] => 0
  | line :: rest =>
    if containsTok badAccessInfoFrameTok line then 0
    else 1 + findBadAccessFrame rest

/-- Uppercase hexadecimal digit for `'%X'` formatting. -/
def hexDigitChar (d : Nat) : Char :=
  if d < 10 then Char.ofNat (48 + d) else Char.ofNat (55 + d)

/-- Fuel-bounded accumulator loop for `'%X'` formatting. -/
def hexFmtAux : Nat → Nat → List Char → List Char
  | 0, _, acc => acc
  | fuel + 1, n, acc =>
    if n < 16 then hexDigitChar n :: acc
    else hexFmtAux fuel (n / 16) (hexDigitChar (n % 16) :: acc)

/-- Python `'%X' % n` for a nonnegative integer: uppercase hex, no prefix. -/
def hexFmt (n : Nat) : List Char := hexFmtAux (n + 1) n []

/-- `list.pop(0)`: remove and discard the head; raises `IndexError` (modelled
as `none`) on an empty list. -/
def popFront : List (List Char) → Option (List (List Char))
  | [] => none
  | _ :: t => some t

/-- `ASanReport = namedtuple(..., "bad_access_info crash_stack alloc_stack free_stack")`. -/
structure ASanReport where
  bad_access_info : List (List Char)
  crash_stack : List (List Char)
  alloc_stack : List (List Char)
  free_stack : List (List Char)
deriving DecidableEq, Repr

/-- How one invocation of `ProcessMinidump` ends: returning a report; taking
the `bad_access_info_frame == -1` branch (print a diagnostic, return `None`);
blocking forever inside `_Command`; or propagating an uncaught `IndexError`
from `bad_access_info.pop(0)`. -/
inductive Outcome where
  | report (r : ASanReport)
  | frameNotFound
  | hang
  | exn
deriving DecidableEq, Repr

/-- `_GET_BAD_ACCESS_INFO_COMMAND`. -/
def getBadAccessInfoCmd : List Char := chars "dt error_info"

/-- `_GET_ALLOC_STACK_COMMAND` (two concatenated source literals). -/
def getAllocStackCmd : List Char :=
  chars "dps @@(&error_info->alloc_stack) l@@(error_info->alloc_stack_size);"

/-- `_GET_FREE_STACK_COMMAND` (two concatenated source literals). -/
def getFreeStackCmd : List Char :=
  chars "dps @@(&error_info->free_stack) l@@(error_info->free_stack_size);"

/-- The closing writes of a debugging session: `debugger.stdin.write('q\n')`
followed by `debugger.wait()`. -/
def quitWrites : List Act := [Act.write (chars "q\n"), Act.wait]

/-- The final assembly of the report (`bad_access_info.pop(0)` at line 138 and
the `ASanReport(...)` construction at lines 149–152): strip the header line of
the raw bad-access dump and package the four sequences; `pop(0)` fails on an
empty dump. -/
def assembleReport (badAccessRaw crash alloc free : List (List Char)) : Option ASanReport :=
  (popFront badAccessRaw).map fun t =>
    { bad_access_info := t, crash_stack := crash, alloc_stack := alloc, free_stack := free }

/-- The tail of `ProcessMinidump` after the `.frame %X` command has been
issued: dump the error-info structure, pop its header line (raising on an
empty dump), capture and normalize the alloc and free stacks, switch to the
exception context, recapture and normalize the crash stack, then quit and wait
before constructing the report. -/
def pmAfterFrame (st : Chan) : Outcome × List Act :=
  match sendCommand st getBadAccessInfoCmd with
  | (none, st1) => (Outcome.hang, st1.log)
  | (some badAccessRaw, st1) =>
    match popFront badAccessRaw with
    | none => (Outcome.exn, st1.log)
    | some badAccessInfo =>
      match sendCommand st1 getAllocStackCmd with
      | (none, st2) => (Outcome.hang, st2.log)
      | (some allocRaw, st2) =>
        match sendCommand st2 getFreeStackCmd with
        | (none, st3) => (Outcome.hang, st3.log)
        | (some freeRaw, st3) =>
          match sendCommand st3 (chars ".ecxr") with
          | (none, st4) => (Outcome.hang, st4.log)
          | (some _, st4) =>
            match sendCommand st4 (chars "kv") with
            | (none, st5) => (Outcome.hang, st5.log)
            | (some crashRaw, st5) =>
              (Outcome.report
                { bad_access_info := badAccessInfo,
                  crash_stack := NormalizeStackTrace crashRaw,
                  alloc_stack := NormalizeStackTrace allocRaw,
                  free_stack := NormalizeStackTrace freeRaw },
               st5.log ++ quitWrites)

/-- `ProcessMinidump` from the point where the crash stack has been captured
and normalized: run the frame-search loop, take the (unreachable) `== -1`
branch — which quits, waits and reports the lookup failure — or issue
`.frame %X` with the counter value and continue with `pmAfterFrame`. -/
def pmAfterCrash (st : Chan) (stack : List (List Char)) : Outcome × List Act :=
  let idx : Int := findBadAccessFrame stack
  if idx = -1 then
    (Outcome.frameNotFound, st.log ++ quitWrites)
  else
    match sendCommand st (chars ".frame " ++ hexFmt idx.toNat) with
    | (none, st1) => (Outcome.hang, st1.log)
    | (some _, st1) => pmAfterFrame st1

/-- `ProcessMinidump(minidump, cdb_path, pdb_path)` over a scripted debugger:
issue the setup commands, capture `kv`, normalize it, and continue with
`pmAfterCrash`.  The result is the outcome together with the trace of actions
performed on the subprocess. -/
def ProcessMinidump (pdbPath : Option (List Char)) (script : List (List Char)) :
    Outcome × List Act :=
  match sendSeq { script := script, log := [] } (setupCmds pdbPath) with
  | (false, st) => (Outcome.hang, st.log)
  | (true, st) =>
    match sendCommand st (chars "kv") with
    | (none, st1) => (Outcome.hang, st1.log)
    | (some asanCrash, st1) => pmAfterCrash st1 (NormalizeStackTrace asanCrash)

/-! ## Concrete sessions used as test inputs -/

/-- A scripted debugger session whose `kv` crash stack contains no frame with
the bad-access sentinel: `.lines` answers nothing, `kv` answers one ordinary
frame line, and every later command answers enough for the run to finish. -/
def scriptNoSentinelFrame : List (List Char) :=
  [chars "ENDENDEND",
   chars "00000000 00000000 foo!bar", chars "ENDENDEND",
   chars "ENDENDEND",
   chars "STRUCT_HEADER", chars "bad access details", chars "ENDENDEND",
   chars "ENDENDEND", chars "ENDENDEND", chars "ENDENDEND",
   chars "00000000 00000000 foo!bar", chars "ENDENDEND"]

/-- The report the orchestrator returns on `scriptNoSentinelFrame`. -/
def reportNoSentinelFrame : ASanReport :=
  { bad_access_info := [chars "bad access details"],
    crash_stack := [chars "foo!bar!unknown"],
    alloc_stack := [], free_stack := [] }

/-- A scripted session in which `dt error_info` produces zero output lines, so
`bad_access_info.pop(0)` raises `IndexError`. -/
def scriptEmptyBadAccess : List (List Char) :=
  List.replicate 4 (chars "ENDENDEND")

/-! ## Helper lemmas: substring search and `rstrip` -/

theorem containsTok_spec (n l : List Char) : containsTok n l = true ↔ n <:+: l := by
  induction l with
  | nil =>
    simp [containsTok, List.isEmpty_iff]
  | cons c rest ih =>
    simp [containsTok, List.infix_cons_iff, ih, or_comm]

theorem rstrip_prefix_self (l : List Char) : rstrip l <+: l := by
  have h := List.dropWhile_suffix (l := l.reverse) isPyWs
  have h2 := List.reverse_prefix.mpr h
  simpa [rstrip] using h2

theorem dropWhile_self {α : Type} (p : α → Bool) (x : List α) :
    (x.dropWhile p).dropWhile p = x.dropWhile p := by
  induction x with
  | nil => rfl
  | cons c xs ih =>
    by_cases hp : p c = true
    · simp [List.dropWhile_cons, hp, ih]
    · simp [List.dropWhile_cons, hp]

theorem rstrip_rstrip (l : List Char) : rstrip (rstrip l) = rstrip l := by
  simp [rstrip, dropWhile_self]

theorem infix_dropWhile {p : Char → Bool} {m x : List Char} (hne : m ≠ [])
    (hm : ∀ c ∈ m, p c = false) (h : m <:+: x) : m <:+: x.dropWhile p := by
  induction x with
  | nil =>
    simp only [List.infix_nil] at h
    exact absurd h hne
  | cons c xs ih =>
    by_cases hp : p c = true
    · rw [List.dropWhile_cons_of_pos hp]
      rcases List.infix_cons_iff.mp h with hpre | hinf
      · exfalso
        obtain ⟨t, ht⟩ := hpre
        cases m with
        | nil => exact hne rfl
        | cons a m' =>
          cases ht
          have := hm c (by simp)
          rw [this] at hp
          exact Bool.false_ne_true hp
      · exact ih hinf
    · rw [List.dropWhile_cons_of_neg hp]
      exact h

theorem containsTok_rstrip (n l : List Char) (hne : n ≠ [])
    (hws : ∀ c ∈ n, isPyWs c = false) :
    containsTok n (rstrip l) = containsTok n l := by
  have h1 : containsTok n (rstrip l) = true ↔ containsTok n l = true := by
    rw [containsTok_spec, containsTok_spec]
    constructor
    · intro h
      exact List.IsInfix.trans h ( List.IsPrefix.isInfix (rstrip_prefix_self l))
    · intro h
      have hrev : n.reverse <:+: l.reverse := List.reverse_infix.mpr h
      have hrev2 : n.reverse <:+: l.reverse.dropWhile isPyWs := by
        refine infix_dropWhile ?_ ?_ hrev
        · simpa using hne
        · intro c hc
          exact hws c (List.mem_reverse.mp hc)
      have := List.reverse_infix.mpr hrev2
      simpa [rstrip] using this
  cases hrl : containsTok n (rstrip l) with
  | true => exact (h1.mp hrl).symm
  | false =>
    cases hl : containsTok n l with
    | true => exact absurd (h1.mpr hl) (by simp [hrl])
    | false => rfl

theorem sentinelTok_ne_nil : sentinelTok ≠ [] := by decide

theorem sentinelTok_no_ws : ∀ c ∈ sentinelTok, isPyWs c = false := by decide

theorem containsTok_sentinel_rstrip (l : List Char) :
    containsTok sentinelTok (rstrip l) = containsTok sentinelTok l :=
  containsTok_rstrip sentinelTok l sentinelTok_ne_nil sentinelTok_no_ws

/-! ## Helper lemmas: the `_Command` read loop -/

theorem readUntilSentinel_split (pre rest : List (List Char)) (mark : List Char)
    (hpre : ∀ l ∈ pre, containsTok sentinelTok l = false)
    (hmark : containsTok sentinelTok mark = true) :
    readUntilSentinel (pre ++ mark :: rest) = some (pre.map rstrip, rest) := by
  induction pre with
  | nil =>
    simp only [List.nil_append, readUntilSentinel, containsTok_sentinel_rstrip, hmark,
      if_true, List.map_nil]
  | cons a pre ih =>
    have ha : containsTok sentinelTok a = false := hpre a (by simp)
    have ih2 := ih (fun l hl => hpre l (by simp [hl]))
    simp only [List.cons_append, readUntilSentinel, containsTok_sentinel_rstrip, ha,
      Bool.false_eq_true, if_false, List.map_cons, List.append_eq, ih2]

theorem readUntilSentinel_out (script out rem : List (List Char))
    (h : readUntilSentinel script = some (out, rem)) :
    ∀ l ∈ out, rstrip l = l ∧ containsTok sentinelTok l = false := by
  induction script generalizing out rem with
  | nil => simp [readUntilSentinel] at h
  | cons c rest ih =>
    simp only [readUntilSentinel] at h
    by_cases hc : containsTok sentinelTok (rstrip c) = true
    · rw [if_pos hc] at h
      cases h
      intro l hl
      simp at hl
    · rw [if_neg hc] at h
      cases hr : readUntilSentinel rest with
      | none => rw [hr] at h; cases h
      | some p =>
        obtain ⟨o, r⟩ := p
        rw [hr] at h
        cases h
        intro l hl
        rcases List.mem_cons.mp hl with hl | hl
        · subst hl
          exact ⟨rstrip_rstrip c, by simpa [containsTok_sentinel_rstrip, rstrip_rstrip] using hc⟩
        · exact ih _ _ hr l hl

/-! ## Helper lemmas: the frame grammar -/

theorem isHexDigitChar_ne_space {c : Char} (h : isHexDigitChar c = true) : c ≠ ' ' := by
  intro he
  subst he
  simp [isHexDigitChar] at h

theorem takeWhile_all {q : Char → Bool} {xs : List Char} (ys : List Char)
    (hxs : ∀ c ∈ xs, q c = true) :
    (xs ++ ys).takeWhile q = xs ++ ys.takeWhile q := by
  induction xs with
  | nil => simp
  | cons a xs ih =>
    have ha : q a = true := hxs a (by simp)
    simp only [List.cons_append, List.takeWhile_cons, ha, if_true]
    rw [ih (fun c hc => hxs c (by simp [hc]))]

theorem matchAddress_some {r : List Char} {f : Frame} (h : matchAddress r = some f) :
    f = Frame.addr r ∧ r ≠ [] ∧ ∀ c ∈ r, ¬(c = ' ') := by
  match r with
  | [] => simp [matchAddress] at h
  | [c] => simp [matchAddress] at h
  | c0 :: c :: rest =>
    simp only [matchAddress] at h
    split at h
    · rename_i hcond
      cases h
      refine ⟨rfl, by simp, ?_⟩
      simp only [Bool.and_eq_true, Bool.or_eq_true, decide_eq_true_eq] at hcond
      intro x hx hxs
      subst hxs
      rcases List.mem_cons.mp hx with h1 | h1
      · rw [hcond.1.1.1] at h1
        exact absurd h1.symm (by decide)
      rcases List.mem_cons.mp h1 with h2 | h2
      · rcases hcond.1.1.2 with h3 | h3 <;> rw [← h2] at h3 <;> exact absurd h3 (by decide)
      · have := List.all_eq_true.mp hcond.2 _ h2
        exact absurd rfl (isHexDigitChar_ne_space this)
    · cases h

theorem tryModuleSplits_shape {r : List Char} {f : Frame} :
    ∀ n, tryModuleSplits r n = some f →
      ∃ ℓ loc, 1 ≤ ℓ ∧ ℓ ≤ n ∧ f = Frame.mod (r.take ℓ) (some loc) := by
  intro n
  induction n with
  | zero => intro h; simp [tryModuleSplits] at h
  | succ k ih =>
    intro h
    simp only [tryModuleSplits] at h
    split at h
    · cases h
      exact ⟨k + 1, r.drop (k + 2), by omega, by omega, rfl⟩
    · obtain ⟨ℓ, loc, h1, h2, h3⟩ := ih h
      exact ⟨ℓ, loc, h1, by omega, h3⟩

theorem matchModule_shape {r : List Char} {f : Frame} (h : matchModule r = some f) :
    ∃ m loc, f = Frame.mod m loc ∧ m ≠ [] ∧ ∀ c ∈ m, ¬(c = ' ') := by
  simp only [matchModule] at h
  split at h
  · cases h
  · rename_i hne
    split at h
    · rename_i hfull
      cases h
      refine ⟨r, none, rfl, ?_, ?_⟩
      · intro hr
        subst hr
        simp at hne
      · have heq : r.takeWhile (fun c => decide (c ≠ ' ')) = r :=
          List.IsPrefix.eq_of_length ( List.takeWhile_prefix _) hfull
        intro c hc
        have := List.mem_takeWhile_imp (x := c) (by rw [heq]; exact hc)
        simpa using this
    · obtain ⟨ℓ, loc, h1, h2, h3⟩ := tryModuleSplits_shape _ h
      refine ⟨r.take ℓ, some loc, h3, ?_, ?_⟩
      · have hrne : r ≠ [] := by
          intro hr
          subst hr
          simp at hne
        intro ht
        rcases List.take_eq_nil_iff.mp ht with h4 | h4
        · omega
        · exact hrne h4
      · intro c hc
        have hlen : ℓ ≤ (r.takeWhile (fun c => decide (c ≠ ' '))).length := by omega
        have hr : r = r.takeWhile (fun c => decide (c ≠ ' ')) ++
            r.dropWhile (fun c => decide (c ≠ ' ')) :=
          (List.takeWhile_append_dropWhile _ _).symm
        rw [hr, List.take_append_of_le_length hlen] at hc
        have hc2 : c ∈ r.takeWhile (fun c => decide (c ≠ ' ')) :=
          List.mem_of_mem_take hc
        have := List.mem_takeWhile_imp hc2
        simpa using this

/-- The address alternative of `_STACK_FRAME_RE` is dead code: whenever a line
matches, the match comes from the module alternative, whose captured module is
a nonempty token without spaces. -/
theorem parseLine_shape {l : List Char} {f : Frame} (h : parseLine l = some f) :
    ∃ m loc, f = Frame.mod m loc ∧ m ≠ [] ∧ ∀ c ∈ m, ¬(c = ' ') := by
  simp only [parseLine] at h
  split at h
  · cases h
  · rename_i r hr
    simp only [matchTail] at h
    split at h
    · rename_i f' hf'
      cases h
      exact matchModule_shape hf'
    · rename_i hmodNone
      obtain ⟨hfa, hrne, hnospace⟩ := matchAddress_some h
      exfalso
      have hfull : (r.takeWhile (fun c => decide (c ≠ ' '))).length = r.length := by
        have heq : r.takeWhile (fun c => decide (c ≠ ' ')) = r := by
          apply List.takeWhile_eq_self_iff.mpr
          intro c hc
          simpa using hnospace c hc
        rw [heq]
      have hne : ¬((r.takeWhile (fun c => decide (c ≠ ' '))).length = 0) := by
        rw [hfull]
        have := List.length_pos.mpr hrne
        omega
      simp only [matchModule] at hmodNone
      rw [if_neg hne, if_pos hfull] at hmodNone
      cases hmodNone

/-! ## Helper lemmas: `NormalizeChromeSymbol` and renormalization -/

theorem chromeMatchAt_subset {l rem : List Char} (h : chromeMatchAt l = some rem) :
    ∀ c ∈ rem, c ∈ l := by
  simp only [chromeMatchAt] at h
  split at h
  · split at h
    · cases h
    · cases h
      intro c hc
      have h1 : c ∈ l.drop 6 := List.dropWhile_subset _ hc
      exact List.drop_subset _ _ h1
  · cases h

theorem chromeSubFuel_no_space {fuel : Nat} {l : List Char}
    (hl : ∀ c ∈ l, ¬(c = ' ')) : ∀ c ∈ chromeSubFuel fuel l, ¬(c = ' ') := by
  induction fuel generalizing l with
  | zero => exact hl
  | succ fuel ih =>
    cases l with
    | nil => intro c hc; simp [chromeSubFuel] at hc
    | cons a rest =>
      simp only [chromeSubFuel]
      cases hm : chromeMatchAt (a :: rest) with
      | some rem =>
        simp only [hm]
        intro c hc
        rcases List.mem_append.mp hc with hc1 | hc1
        · have hcd : ∀ x ∈ chars "chrome_dll", ¬(x = ' ') := by decide
          exact hcd c hc1
        · exact ih (fun c hc2 => hl c (chromeMatchAt_subset hm c hc2)) c hc1
      | none =>
        simp only [hm]
        intro c hc
        rcases List.mem_cons.mp hc with hc1 | hc1
        · subst hc1; exact hl c (by simp)
        · exact ih (fun c hc2 => hl c (by simp [hc2])) c hc1

theorem chromeSubFuel_ne_nil {fuel : Nat} {l : List Char} (hl : l ≠ []) :
    chromeSubFuel fuel l ≠ [] := by
  cases fuel with
  | zero => exact hl
  | succ fuel =>
    cases l with
    | nil => exact absurd rfl hl
    | cons a rest =>
      simp only [chromeSubFuel]
      cases hm : chromeMatchAt (a :: rest) with
      | some rem => simp [chars]
      | none => simp

theorem NormalizeChromeSymbol_no_space {l : List Char} (hl : ∀ c ∈ l, ¬(c = ' ')) :
    ∀ c ∈ NormalizeChromeSymbol l, ¬(c = ' ') :=
  chromeSubFuel_no_space hl

theorem NormalizeChromeSymbol_ne_nil {l : List Char} (hl : l ≠ []) :
    NormalizeChromeSymbol l ≠ [] :=
  chromeSubFuel_ne_nil hl

theorem consumePair_none_of_bang {l : List Char}
    (h : '!' ∈ l.takeWhile (fun c => decide (c ≠ ' '))) : consumePair l = none := by
  simp only [consumePair]
  split
  · rfl
  · rename_i hh
    split
    · rfl
    · rename_i hs
      exfalso
      have hsplit : l = l.takeWhile isHexDigitChar ++ l.dropWhile isHexDigitChar :=
        (List.takeWhile_append_dropWhile _ _).symm
      have hr1 : ∃ t, l.dropWhile isHexDigitChar = ' ' :: t := by
        cases hr : l.dropWhile isHexDigitChar with
        | nil => rw [hr] at hs; simp [List.takeWhile_nil] at hs
        | cons b t =>
          rw [hr] at hs
          simp only [List.takeWhile_cons] at hs
          by_cases hb : b = ' '
          · exact ⟨t, by rw [hb]⟩
          · rw [if_neg (by simpa using hb)] at hs
            exact absurd rfl hs
      obtain ⟨t, ht⟩ := hr1
      have htw : l.takeWhile (fun c => decide (c ≠ ' ')) = l.takeWhile isHexDigitChar := by
        conv_lhs => rw [hsplit]
        rw [ takeWhile_all _ (fun c hc => by
          simpa using isHexDigitChar_ne_space (List.mem_takeWhile_imp hc))]
        rw [ht]
        simp [List.takeWhile_cons]
      rw [htw] at h
      have := List.mem_takeWhile_imp h
      simp [isHexDigitChar] at this

theorem parseLine_none_of_bang {l : List Char}
    (h : '!' ∈ l.takeWhile (fun c => decide (c ≠ ' '))) : parseLine l = none := by
  simp only [parseLine, consumeArgs, consumePair_none_of_bang h]

theorem bang_mem_takeWhile {m1 l1 : List Char} (hm : ∀ c ∈ m1, ¬(c = ' ')) :
    '!' ∈ (m1 ++ '!' :: l1).takeWhile (fun c => decide (c ≠ ' ')) := by
  rw [ takeWhile_all _ (fun c hc => by simpa using hm c hc)]
  simp [List.takeWhile_cons]

/-! ## Helper lemmas: `NormalizeStackTrace` -/

theorem NormalizeStackTrace_eq_filterMap (lines : List (List Char)) :
    NormalizeStackTrace lines = lines.filterMap (fun l => (parseLine l).map renderFrame) := by
  induction lines with
  | nil => rfl
  | cons line rest ih =>
    simp only [NormalizeStackTrace]
    cases hp : parseLine line with
    | none => simp [List.filterMap_cons, hp, ih]
    | some f => simp [List.filterMap_cons, hp, ih]

theorem parseLine_render_none {l : List Char} {f : Frame} (h : parseLine l = some f) :
    parseLine (renderFrame f) = none := by
  obtain ⟨m, loc, hf, hne, hns⟩ := parseLine_shape h
  subst hf
  have hm1 : ∀ c ∈ NormalizeChromeSymbol m, ¬(c = ' ') := NormalizeChromeSymbol_no_space hns
  apply parseLine_none_of_bang
  show '!' ∈ (NormalizeChromeSymbol m ++ '!' :: _).takeWhile _
  exact bang_mem_takeWhile hm1

theorem NormalizeStackTrace_twice (s : List (List Char)) :
    NormalizeStackTrace (NormalizeStackTrace s) = [] := by
  rw [NormalizeStackTrace_eq_filterMap (NormalizeStackTrace s)]
  rw [List.filterMap_eq_nil_iff]
  intro x hx
  rw [NormalizeStackTrace_eq_filterMap] at hx
  obtain ⟨l, _, hl⟩ := List.mem_filterMap.mp hx
  obtain ⟨f, hf, hrender⟩ := Option.map_eq_some'.mp hl
  subst hrender
  rw [parseLine_render_none hf]
  rfl

/-! ## Helper lemmas: the orchestrator -/

theorem sendCommand_log (st : Chan) (cmd : List Char) :
    ((sendCommand st cmd).snd).log = st.log ++ [Act.write (cmd ++ echoSfx)] := by
  simp only [sendCommand]
  split <;> rfl

theorem append_log_ext {A B w : List Act} (h : A = B ++ w) (q : List Act) :
    ∃ t, A ++ q = B ++ t :=
  ⟨w ++ q, by rw [h, List.append_assoc]⟩

theorem pmAfterFrame_log (st : Chan) :
    ∃ t, (pmAfterFrame st).snd = st.log ++ t := by
  simp only [pmAfterFrame]
  split
  · rename_i st1 heq1
    have h1 := sendCommand_log st getBadAccessInfoCmd
    rw [heq1] at h1
    exact ⟨_, h1⟩
  · rename_i badAccessRaw st1 heq1
    have h1 := sendCommand_log st getBadAccessInfoCmd
    rw [heq1] at h1
    split
    · exact ⟨_, h1⟩
    · rename_i badAccessInfo hpop
      split
      · rename_i st2 heq2
        have h2 := sendCommand_log st1 getAllocStackCmd
        rw [heq2, h1, List.append_assoc] at h2
        exact ⟨_, h2⟩
      · rename_i allocRaw st2 heq2
        have h2 := sendCommand_log st1 getAllocStackCmd
        rw [heq2, h1, List.append_assoc] at h2
        split
        · rename_i st3 heq3
          have h3 := sendCommand_log st2 getFreeStackCmd
          rw [heq3, h2, List.append_assoc] at h3
          exact ⟨_, h3⟩
        · rename_i freeRaw st3 heq3
          have h3 := sendCommand_log st2 getFreeStackCmd
          rw [heq3, h2, List.append_assoc] at h3
          split
          · rename_i st4 heq4
            have h4 := sendCommand_log st3 (chars ".ecxr")
            rw [heq4, h3, List.append_assoc] at h4
            exact ⟨_, h4⟩
          · rename_i ecxrOut st4 heq4
            have h4 := sendCommand_log st3 (chars ".ecxr")
            rw [heq4, h3, List.append_assoc] at h4
            split
            · rename_i st5 heq5
              have h5 := sendCommand_log st4 (chars "kv")
              rw [heq5, h4, List.append_assoc] at h5
              exact ⟨_, h5⟩
            · rename_i crashRaw st5 heq5
              have h5 := sendCommand_log st4 (chars "kv")
              rw [heq5, h4, List.append_assoc] at h5
              dsimp only at h5
              exact append_log_ext h5 quitWrites

theorem findBadAccessFrame_nonneg (stack : List (List Char)) :
    0 ≤ findBadAccessFrame stack := by
  induction stack with
  | nil => simp [findBadAccessFrame]
  | cons line rest ih =>
    simp only [findBadAccessFrame]
    split
    · omega
    · omega

theorem findBadAccessFrame_first (pre rest : List (List Char)) (mark : List Char)
    (hpre : ∀ l ∈ pre, containsTok badAccessInfoFrameTok l = false)
    (hmark : containsTok badAccessInfoFrameTok mark = true) :
    findBadAccessFrame (pre ++ mark :: rest) = (pre.length : Int) := by
  induction pre with
  | nil => simp [findBadAccessFrame, hmark]
  | cons a pre ih =>
    have ha : containsTok badAccessInfoFrameTok a = false := hpre a (by simp)
    have ih2 := ih (fun l hl => hpre l (by simp [hl]))
    simp only [List.cons_append, findBadAccessFrame, List.append_eq]
    rw [if_neg (by simp [ha]), ih2]
    simp only [List.length_cons]
    push_cast
    ring

theorem pmAfterFrame_quit (st : Chan)
    (h : (∃ r, (pmAfterFrame st).fst = Outcome.report r) ∨
         (pmAfterFrame st).fst = Outcome.frameNotFound) :
    ∃ t, (pmAfterFrame st).snd = t ++ quitWrites := by
  simp only [pmAfterFrame] at h ⊢
  repeat' split
  all_goals first
    | exact ⟨_, rfl⟩
    | (rcases h with ⟨r, hr⟩ | hr <;> simp_all)

theorem pmAfterCrash_quit (st : Chan) (stack : List (List Char)) :
    (∃ r, (pmAfterCrash st stack).fst = Outcome.report r) ∨
      (pmAfterCrash st stack).fst = Outcome.frameNotFound →
    ∃ t, (pmAfterCrash st stack).snd = t ++ quitWrites := by
  simp only [pmAfterCrash]
  split
  · intro _
    exact ⟨st.log, rfl⟩
  · split
    · intro h
      rcases h with ⟨r, hr⟩ | hr <;> simp_all
    · intro h
      exact pmAfterFrame_quit _ h

/-! ## Claims -/

/-- Claim C1 (evaluation at the failing input): on a session whose crash stack
contains no frame with the bad-access sentinel, the orchestrator does not
report a frame-not-found condition: the counter equals the stack length, the
`== -1` check cannot fire, a `.frame` selection command is still issued and a
full `Report` is returned. -/
theorem c1_missing_sentinel_still_reports :
    (∀ l ∈ NormalizeStackTrace [chars "00000000 00000000 foo!bar"],
        containsTok badAccessInfoFrameTok l = false) ∧
    (ProcessMinidump none scriptNoSentinelFrame).fst = Outcome.report reportNoSentinelFrame ∧
    Act.write ((chars ".frame 1") ++ echoSfx) ∈ (ProcessMinidump none scriptNoSentinelFrame).snd := by
  refine ⟨by decide, by decide, by decide⟩

/-- Claim C2 (counterexample): a terminating execution of the orchestrator — the
uncaught `IndexError` raised by `bad_access_info.pop(0)` on an empty bad-access
dump — on which no quit command is written and the process is never waited for. -/
theorem c2_exn_leaks_subprocess :
    (ProcessMinidump none scriptEmptyBadAccess).fst = Outcome.exn ∧
    Act.write (chars "q\n") ∉ (ProcessMinidump none scriptEmptyBadAccess).snd ∧
    Act.wait ∉ (ProcessMinidump none scriptEmptyBadAccess).snd := by
  refine ⟨by decide, by decide, by decide⟩

/-- Claim C2 (amended): on every execution of the orchestrator that terminates
normally — returning a `Report` or reporting the frame-lookup failure — the
quit command is written and the process is waited for as the final actions
before returning; an execution terminating with an uncaught error is excepted. -/
theorem c2_normal_termination_quits (pdbPath : Option (List Char)) (script : List (List Char))
    (h : (∃ r, (ProcessMinidump pdbPath script).fst = Outcome.report r) ∨
         (ProcessMinidump pdbPath script).fst = Outcome.frameNotFound) :
    ∃ t, (ProcessMinidump pdbPath script).snd = t ++ quitWrites := by
  revert h
  simp only [ProcessMinidump]
  split
  · intro h
    rcases h with ⟨r, hr⟩ | hr <;> simp_all
  · split
    · intro h
      rcases h with ⟨r, hr⟩ | hr <;> simp_all
    · intro h
      exact pmAfterCrash_quit _ _ h

/-- Claim C2 witness: a concrete successful session on which the amended claim
applies. -/
theorem c2_normal_termination_quits_witness :
    ((∃ r, (ProcessMinidump none scriptNoSentinelFrame).fst = Outcome.report r) ∨
      (ProcessMinidump none scriptNoSentinelFrame).fst = Outcome.frameNotFound) ∧
    ∃ t, (ProcessMinidump none scriptNoSentinelFrame).snd = t ++ quitWrites :=
  ⟨Or.inl ⟨reportNoSentinelFrame, by decide⟩,
   c2_normal_termination_quits none scriptNoSentinelFrame
     (Or.inl ⟨reportNoSentinelFrame, by decide⟩)⟩

/-- Claim C3: for every scripted line sequence, `Send` returns exactly the
lines read before the first line containing the marker token, in receipt order
(each stripped of trailing whitespace); the marker line itself is discarded. -/
theorem c3_send_returns_lines_before_marker (st : Chan) (cmd : List Char)
    (pre rest : List (List Char)) (mark : List Char)
    (hscript : st.script = pre ++ mark :: rest)
    (hpre : ∀ l ∈ pre, containsTok sentinelTok l = false)
    (hmark : containsTok sentinelTok mark = true) :
    (sendCommand st cmd).fst = some (pre.map rstrip) := by
  simp only [sendCommand, hscript, readUntilSentinel_split pre rest mark hpre hmark]

/-- Claim C3 witness: a concrete three-line script whose third line carries the
marker. -/
theorem c3_send_returns_lines_before_marker_witness :
    (Chan.mk [chars "line1", chars "line2 ", chars "xx ENDENDEND yy"] []).script =
        [chars "line1", chars "line2 "] ++ (chars "xx ENDENDEND yy") :: [] ∧
    (∀ l ∈ [chars "line1", chars "line2 "], containsTok sentinelTok l = false) ∧
    containsTok sentinelTok (chars "xx ENDENDEND yy") = true ∧
    (sendCommand (Chan.mk [chars "line1", chars "line2 ", chars "xx ENDENDEND yy"] [])
        (chars "kv")).fst = some ([chars "line1", chars "line2 "].map rstrip) :=
  ⟨rfl, by decide, by decide,
   c3_send_returns_lines_before_marker _ _ _ _ _ rfl (by decide) (by decide)⟩

/-- Claim C4: when the sentinel frame name first appears at position `k` of the
normalized crash stack, the frame-search loop yields exactly `k` (the count of
preceding frames) and the orchestrator issues the `.frame` command with index
`k` formatted in uppercase hexadecimal. -/
theorem c4_selects_first_sentinel_index (st : Chan) (pre rest : List (List Char))
    (mark : List Char)
    (hpre : ∀ l ∈ pre, containsTok badAccessInfoFrameTok l = false)
    (hmark : containsTok badAccessInfoFrameTok mark = true) :
    findBadAccessFrame (pre ++ mark :: rest) = (pre.length : Int) ∧
    Act.write ((chars ".frame " ++ hexFmt pre.length) ++ echoSfx) ∈
      (pmAfterCrash st (pre ++ mark :: rest)).snd := by
  have hidx := findBadAccessFrame_first pre rest mark hpre hmark
  refine ⟨hidx, ?_⟩
  simp only [pmAfterCrash, hidx]
  rw [if_neg (by omega)]
  have htn : ((pre.length : Int)).toNat = pre.length := Int.toNat_natCast _
  rw [htn]
  split
  · rename_i st1 heq
    have h1 := sendCommand_log st (chars ".frame " ++ hexFmt pre.length)
    rw [heq] at h1
    have h2 : st1.log = st.log ++
        [Act.write ((chars ".frame " ++ hexFmt pre.length) ++ echoSfx)] := h1
    show Act.write ((chars ".frame " ++ hexFmt pre.length) ++ echoSfx) ∈ st1.log
    rw [h2]
    simp
  · rename_i o st1 heq
    have h1 := sendCommand_log st (chars ".frame " ++ hexFmt pre.length)
    rw [heq] at h1
    have h2 : st1.log = st.log ++
        [Act.write ((chars ".frame " ++ hexFmt pre.length) ++ echoSfx)] := h1
    obtain ⟨t, ht⟩ := pmAfterFrame_log st1
    rw [ht, h2]
    simp

/-- Claim C4 witness: a synthetic two-frame stack with the sentinel at index 1. -/
theorem c4_selects_first_sentinel_index_witness :
    (∀ l ∈ [chars "aa!bb"], containsTok badAccessInfoFrameTok l = false) ∧
    containsTok badAccessInfoFrameTok
      (chars "asan_rtl!agent::asan::AsanRuntime::OnError x") = true ∧
    (findBadAccessFrame ([chars "aa!bb"] ++
        (chars "asan_rtl!agent::asan::AsanRuntime::OnError x") :: []) = (1 : Int) ∧
     Act.write ((chars ".frame " ++ hexFmt 1) ++ echoSfx) ∈
       (pmAfterCrash (Chan.mk [] []) ([chars "aa!bb"] ++
         (chars "asan_rtl!agent::asan::AsanRuntime::OnError x") :: [])).snd) :=
  ⟨by decide, by decide,
   c4_selects_first_sentinel_index (Chan.mk [] []) [chars "aa!bb"] []
     (chars "asan_rtl!agent::asan::AsanRuntime::OnError x") (by decide) (by decide)⟩

/-- Claim C5 (counterexample): normalization is not idempotent — renormalizing
the normalized form of `00 chrome12!x y` yields a different (empty) stack. -/
theorem c5_normalize_not_idempotent_cex :
    NormalizeStackTrace (NormalizeStackTrace [chars "00 chrome12!x y"]) ≠
      NormalizeStackTrace [chars "00 chrome12!x y"] := by
  decide

/-- Claim C5 (amended): normalization collapses each leftmost non-overlapping
match of the product-name-plus-build-suffix pattern to the canonical token, but
it is not idempotent: the canonical token itself partially re-matches the
pattern, and renormalizing an already-normalized stack always yields the empty
stack because rendered frames lack the leading hexadecimal argument fields. -/
theorem c5_collapse_and_renormalize_empty :
    NormalizeChromeSymbol (chars "chrome1234ABCD!foo") = chars "chrome_dll!foo" ∧
    NormalizeChromeSymbol (chars "CHROME_ABC end chrome_12") =
      chars "chrome_dll end chrome_dll" ∧
    NormalizeChromeSymbol (chars "chrome_dll") ≠ chars "chrome_dll" ∧
    ∀ s, NormalizeStackTrace (NormalizeStackTrace s) = [] :=
  ⟨by decide, by decide, by decide, NormalizeStackTrace_twice⟩

/-- Claim C6 (evaluation at the failing input): a line with hexadecimal
argument fields followed by a bare address is captured by the module
alternative (the address alternative of the pattern is unreachable), so its
rendering is `0xdeadbeef!unknown`, not the address token unchanged. -/
theorem c6_bare_address_renders_with_unknown :
    parseLine (chars "00000000 0xdeadbeef") = some (Frame.mod (chars "0xdeadbeef") none) ∧
    NormalizeStackTrace [chars "00000000 0xdeadbeef"] = [chars "0xdeadbeef!unknown"] ∧
    NormalizeStackTrace [chars "00000000 0xdeadbeef"] ≠ [chars "0xdeadbeef"] := by
  refine ⟨by decide, by decide, by decide⟩

/-- Claim C7 (counterexample): a module frame with an empty-string location
renders exactly like a module frame with a missing location — the two cases are
not distinguishable in the output. -/
theorem c7_empty_location_indistinguishable_cex :
    renderFrame (Frame.mod (chars "mod") (some [])) =
      renderFrame (Frame.mod (chars "mod") none) := rfl

/-- Claim C7 (amended): a module frame with no location token renders with the
literal location text `unknown`, and a module frame with an empty-string
location renders identically (also `unknown`), not distinguishably: Python
truthiness sends both `None` and the empty string to the `unknown` branch. -/
theorem c7_missing_and_empty_location_render_unknown :
    (∀ m, renderFrame (Frame.mod m none) = NormalizeChromeSymbol m ++ '!' :: chars "unknown") ∧
    (∀ m, renderFrame (Frame.mod m (some [])) =
       NormalizeChromeSymbol m ++ '!' :: chars "unknown") :=
  ⟨fun _ => rfl, fun _ => rfl⟩

/-- Claim C8: `NormalizeStack` applies `ParseLine` to each line in order, keeps
only successful parses and renders them preserving order; blank lines, header
lines and lines with trailing garbage never appear in the output. -/
theorem c8_normalize_filters_and_preserves_order :
    (∀ lines, NormalizeStackTrace lines =
        lines.filterMap (fun l => (parseLine l).map renderFrame)) ∧
    NormalizeStackTrace [[], chars "Crash stack:", chars "00 mod garbage",
        chars "00 0xdead beef", chars "00000000 00000000 foo!bar"] =
      [chars "foo!bar!unknown"] :=
  ⟨NormalizeStackTrace_eq_filterMap, by decide⟩

/-- Claim C9 (counterexample): assembling a report from an empty bad-access
dump fails — `bad_access_info.pop(0)` raises `IndexError` on an empty list. -/
theorem c9_empty_dump_assembly_fails_cex :
    assembleReport [] [chars "c"] [chars "a"] [] = none := rfl

/-- Claim C9 (amended): report assembly is total on every input whose
bad-access dump is nonempty: the header line is stripped and the report is
constructed from the remaining lines and the three stacks unchanged. -/
theorem c9_assembly_total_on_nonempty :
    ∀ hd tl crash alloc free, assembleReport (hd :: tl) crash alloc free =
      some { bad_access_info := tl, crash_stack := crash,
             alloc_stack := alloc, free_stack := free } :=
  fun _ _ _ _ _ => rfl

/-- Claim C10: every line returned by `Send` has its trailing whitespace
removed, and no returned line contains the marker token as a substring. -/
theorem c10_send_lines_stripped_no_marker (st : Chan) (cmd : List Char)
    (out : List (List Char)) (h : (sendCommand st cmd).fst = some out) :
    ∀ l ∈ out, rstrip l = l ∧ containsTok sentinelTok l = false := by
  simp only [sendCommand] at h
  cases hr : readUntilSentinel st.script with
  | none => rw [hr] at h; cases h
  | some p =>
    obtain ⟨o, rem⟩ := p
    rw [hr] at h
    have ho : o = out := by simpa using h
    subst ho
    exact readUntilSentinel_out _ _ _ hr

/-- Claim C10 witness: a concrete script with a trailing-whitespace line. -/
theorem c10_send_lines_stripped_no_marker_witness :
    (sendCommand (Chan.mk [chars "abc  ", chars "ENDENDEND"] []) (chars "kv")).fst =
        some [chars "abc"] ∧
    ∀ l ∈ [chars "abc"], rstrip l = l ∧ containsTok sentinelTok l = false :=
  ⟨by decide,
   c10_send_lines_stripped_no_marker
     (Chan.mk [chars "abc  ", chars "ENDENDEND"] []) (chars "kv") [chars "abc"] (by decide)⟩

end Sawbuck
